import Mathlib

attribute [local semireducible] Rat.mul Rat.inv Rat.add Rat.sub

/-!
Verification of the Newton-Raphson square-root solver in
`src/ApplicationActivity.py`.

The whole program is the single function `newton_raphson_interactive`,
which iterates `x_next = x_curr - f(x_curr)/f'(x_curr)` for
`f(x) = x^2 - target_val`, `f'(x) = 2*x`, collecting one trace record per
completed pass and returning the trace as a table.  The visualization and
console printing are side effects that carry no data back into the loop;
the one printed value with semantic content is the convergence message
`Converged to {x_next}`, which we model as an `Option` field of the
result.

Real arithmetic of the source is embedded as exact rational arithmetic
(`ℚ`), so that every definition is executable and decidable; the limit
property of the underlying iteration map is stated over `ℝ`.
-/

/-- One row of the trace: the dictionary
`{'Iter': i+1, 'x_curr': x_curr, 'f(x)': fx, 'Error': error}`
appended on each completed loop pass (line 65 of the source). -/
structure IterationRecord where
  iter : ℕ
  x_curr : ℚ
  f_x : ℚ
  error : ℚ
deriving DecidableEq

/-- What a call to the solver produces for the caller: the list of trace
records (returned as a DataFrame) and, when the convergence branch was
taken, the value announced by the `Converged to {x_next}` message. -/
structure SolveResult where
  records : List IterationRecord
  converged : Option ℚ
deriving DecidableEq

/-- `def f(x): return x**2 - target_val` (line 12). -/
def f (target_val x : ℚ) : ℚ := x ^ 2 - target_val

/-- `def df(x): return 2*x` (line 13). -/
def df (x : ℚ) : ℚ := 2 * x

/-- The update `x_next = x_curr - fx/dfx` of line 42, as a function of the
current iterate. -/
def x_nextVal (target_val x : ℚ) : ℚ := x - f target_val x / df x

/-- The `for i in range(max_iter)` loop of lines 36-72.  `fuel` is the
number of passes still allowed (`max_iter - i`), `i` the 0-based Python
loop index, `x_curr` the current iterate.  The guard of line 40 and the
convergence break of lines 68-70 end the recursion. -/
def nrLoop (target_val tol : ℚ) : ℕ → ℕ → ℚ → SolveResult
  | 0, _, _ => ⟨[], none⟩
  | fuel + 1, i, x_curr =>
    let fx := f target_val x_curr
    let dfx := df x_curr
    if |dfx| < 1 / 10 ^ 12 then ⟨[], none⟩
    else
      let x_next := x_curr - fx / dfx
      let error := |x_next - x_curr|
      let r : IterationRecord := ⟨i + 1, x_curr, fx, error⟩
      if error < tol then ⟨[r], some x_next⟩
      else
        let rest := nrLoop target_val tol fuel (i + 1) x_next
        ⟨r :: rest.records, rest.converged⟩

/-- `newton_raphson_interactive(target_val, x0, tol=1e-6, max_iter=10)`
(line 6): run the loop from `x0` with Python index 0. -/
def newton_raphson_interactive (target_val x0 tol : ℚ) (max_iter : ℕ) :
    SolveResult :=
  nrLoop target_val tol max_iter 0 x0

/-- The default tolerance `1e-6` of the signature. -/
def tol_default : ℚ := 1 / 10 ^ 6

/-- The default iteration cap `10` of the signature. -/
def max_iter_default : ℕ := 10

/-- Helper: if the derivative guard of line 40 holds on entry, the loop
produces no records and no convergence message, whatever the fuel. -/
theorem nrLoop_guard (target_val tol : ℚ) (fuel i : ℕ) (x : ℚ)
    (h : |df x| < 1 / 10 ^ 12) :
    nrLoop target_val tol fuel i x = ⟨[], none⟩ := by
  cases fuel with
  | zero => rfl
  | succ n =>
    simp only [nrLoop]
    rw [if_pos h]

/-- Helper: unfolding of one loop pass that hits the convergence break of
lines 68-70: a single record and the `Converged to x_next` message. -/
theorem nrLoop_succ_conv (target_val tol : ℚ) (fuel i : ℕ) (x : ℚ)
    (h : ¬ |df x| < 1 / 10 ^ 12) (h2 : |x_nextVal target_val x - x| < tol) :
    nrLoop target_val tol (fuel + 1) i x =
      ⟨[⟨i + 1, x, f target_val x, |x_nextVal target_val x - x|⟩],
        some (x_nextVal target_val x)⟩ := by
  simp only [x_nextVal] at h2 ⊢
  simp only [nrLoop]
  rw [if_neg h, if_pos h2]

/-- Helper: unfolding of one loop pass that falls through to `x_curr = x_next`
(line 72): the pass record is prepended to the recursive result. -/
theorem nrLoop_succ_cont (target_val tol : ℚ) (fuel i : ℕ) (x : ℚ)
    (h : ¬ |df x| < 1 / 10 ^ 12) (h2 : ¬ |x_nextVal target_val x - x| < tol) :
    nrLoop target_val tol (fuel + 1) i x =
      ⟨⟨i + 1, x, f target_val x, |x_nextVal target_val x - x|⟩ ::
          (nrLoop target_val tol fuel (i + 1) (x_nextVal target_val x)).records,
        (nrLoop target_val tol fuel (i + 1) (x_nextVal target_val x)).converged⟩ := by
  simp only [x_nextVal] at h2 ⊢
  simp only [nrLoop]
  rw [if_neg h, if_neg h2]

/-- Helper: the loop adds at most `fuel` records. -/
theorem nrLoop_length_le (target_val tol : ℚ) :
    ∀ fuel i x, (nrLoop target_val tol fuel i x).records.length ≤ fuel := by
  intro fuel
  induction fuel with
  | zero => intro i x; simp [nrLoop]
  | succ n ih =>
    intro i x
    by_cases h : |df x| < 1 / 10 ^ 12
    · rw [nrLoop_guard _ _ _ _ _ h]; simp
    · by_cases h2 : |x_nextVal target_val x - x| < tol
      · rw [nrLoop_succ_conv _ _ _ _ _ h h2]; simp
      · rw [nrLoop_succ_cont _ _ _ _ _ h h2]
        simpa using ih (i + 1) (x_nextVal target_val x)

/-- Helper: the `Iter` fields written by the loop started at Python index
`i` are `i+1, i+2, ...` in order. -/
theorem nrLoop_map_iter (target_val tol : ℚ) :
    ∀ fuel i x,
      (nrLoop target_val tol fuel i x).records.map IterationRecord.iter
        = List.range' (i + 1) (nrLoop target_val tol fuel i x).records.length := by
  intro fuel
  induction fuel with
  | zero => intro i x; simp [nrLoop]
  | succ n ih =>
    intro i x
    by_cases h : |df x| < 1 / 10 ^ 12
    · rw [nrLoop_guard _ _ _ _ _ h]; simp
    · by_cases h2 : |x_nextVal target_val x - x| < tol
      · rw [nrLoop_succ_conv _ _ _ _ _ h h2]; simp
      · rw [nrLoop_succ_cont _ _ _ _ _ h h2]
        simp only [List.map_cons, List.length_cons,
          ih (i + 1) (x_nextVal target_val x), List.range'_succ]

/-- Helper: the head record of a loop result, when there is one, carries
the entry iterate as its `x_curr`. -/
theorem nrLoop_head_x (target_val tol : ℚ) (fuel i : ℕ) (x : ℚ) :
    ∀ r ∈ (nrLoop target_val tol fuel i x).records.head?, r.x_curr = x := by
  intro r hr
  cases fuel with
  | zero => simp [nrLoop] at hr
  | succ n =>
    by_cases h : |df x| < 1 / 10 ^ 12
    · rw [nrLoop_guard _ _ _ _ _ h] at hr; simp at hr
    · by_cases h2 : |x_nextVal target_val x - x| < tol
      · rw [nrLoop_succ_conv _ _ _ _ _ h h2] at hr
        simp at hr; rw [← hr]
      · rw [nrLoop_succ_cont _ _ _ _ _ h h2] at hr
        simp at hr; rw [← hr]

/-- Helper: every record stores `f_x = f(x_curr)` and
`error = |x_next - x_curr|` for the `x_next` computed from its own
`x_curr`. -/
theorem nrLoop_field_inv (target_val tol : ℚ) :
    ∀ fuel i x, ∀ r ∈ (nrLoop target_val tol fuel i x).records,
      r.f_x = f target_val r.x_curr ∧
      r.error = |x_nextVal target_val r.x_curr - r.x_curr| := by
  intro fuel
  induction fuel with
  | zero => intro i x r hr; simp [nrLoop] at hr
  | succ n ih =>
    intro i x r hr
    by_cases h : |df x| < 1 / 10 ^ 12
    · rw [nrLoop_guard _ _ _ _ _ h] at hr; simp at hr
    · by_cases h2 : |x_nextVal target_val x - x| < tol
      · rw [nrLoop_succ_conv _ _ _ _ _ h h2] at hr
        simp at hr; subst hr; exact ⟨rfl, rfl⟩
      · rw [nrLoop_succ_cont _ _ _ _ _ h h2] at hr
        simp at hr
        rcases hr with rfl | hr
        · exact ⟨rfl, rfl⟩
        · exact ih (i + 1) (x_nextVal target_val x) r hr

/-- Helper: consecutive records are linked by the Newton update computed
from the stored fields of the earlier one. -/
theorem nrLoop_chain (target_val tol : ℚ) :
    ∀ fuel i x,
      List.Chain' (fun a b => b.x_curr = a.x_curr - a.f_x / (2 * a.x_curr))
        (nrLoop target_val tol fuel i x).records := by
  intro fuel
  induction fuel with
  | zero => intro i x; simp [nrLoop]
  | succ n ih =>
    intro i x
    by_cases h : |df x| < 1 / 10 ^ 12
    · rw [nrLoop_guard _ _ _ _ _ h]; simp
    · by_cases h2 : |x_nextVal target_val x - x| < tol
      · rw [nrLoop_succ_conv _ _ _ _ _ h h2]; simp
      · rw [nrLoop_succ_cont _ _ _ _ _ h h2]
        refine List.chain'_cons'.mpr ⟨?_, ih (i + 1) (x_nextVal target_val x)⟩
        intro y hy
        have hx := nrLoop_head_x target_val tol n (i + 1) (x_nextVal target_val x) y hy
        rw [hx]
        simp [x_nextVal, f, df]

/-- C2: in every returned table each record satisfies
`f_x = x_curr^2 - target_val` and `error = |x_next - x_curr|` with
`x_next = x_curr - f_x/(2*x_curr)`, and each later record's `x_curr` is the
`x_next` computed from the record before it. -/
theorem records_satisfy_newton_relations (target_val x0 tol : ℚ) (max_iter : ℕ) :
    (∀ r ∈ (newton_raphson_interactive target_val x0 tol max_iter).records,
        r.f_x = r.x_curr ^ 2 - target_val ∧
        r.error = |(r.x_curr - r.f_x / (2 * r.x_curr)) - r.x_curr|) ∧
    List.Chain' (fun a b => b.x_curr = a.x_curr - a.f_x / (2 * a.x_curr))
      (newton_raphson_interactive target_val x0 tol max_iter).records := by
  constructor
  · intro r hr
    obtain ⟨h1, h2⟩ := nrLoop_field_inv target_val tol max_iter 0 x0 r hr
    refine ⟨h1, ?_⟩
    rw [h2, h1]
    simp [x_nextVal, f, df]
  · exact nrLoop_chain target_val tol max_iter 0 x0

/-- Witness for C2 on the first record of `solve(3, 2.0)`. -/
theorem records_satisfy_newton_relations_witness :
    (⟨1, 2, 1, 1 / 4⟩ : IterationRecord).f_x
        = (⟨1, 2, 1, 1 / 4⟩ : IterationRecord).x_curr ^ 2 - 3 ∧
    (⟨1, 2, 1, 1 / 4⟩ : IterationRecord).error
        = |((⟨1, 2, 1, 1 / 4⟩ : IterationRecord).x_curr
              - (⟨1, 2, 1, 1 / 4⟩ : IterationRecord).f_x
                / (2 * (⟨1, 2, 1, 1 / 4⟩ : IterationRecord).x_curr))
            - (⟨1, 2, 1, 1 / 4⟩ : IterationRecord).x_curr| :=
  (records_satisfy_newton_relations 3 2 tol_default max_iter_default).1
    ⟨1, 2, 1, 1 / 4⟩ (by decide)

/-- C5: the returned table never has more than `max_iter` records, and the
`Iter` fields are exactly `1, 2, ..., n` in order (`n` the number of
records). -/
theorem records_length_and_indices (target_val x0 tol : ℚ) (max_iter : ℕ) :
    (newton_raphson_interactive target_val x0 tol max_iter).records.length ≤ max_iter ∧
    (newton_raphson_interactive target_val x0 tol max_iter).records.map IterationRecord.iter
      = List.range' 1
          (newton_raphson_interactive target_val x0 tol max_iter).records.length :=
  ⟨nrLoop_length_le target_val tol max_iter 0 x0,
   by simpa using nrLoop_map_iter target_val tol max_iter 0 x0⟩

/-- C1: `solve(target_val=3, x0=2.0)` with defaults: the first record is
`{Iter 1, x_curr 2, f_x 1, error 1/4}` (the pass computes
`x_next = 2 - 1/4 = 7/4`, so `error = |7/4 - 2| = 1/4 = 0.25`). -/
theorem first_record_sqrt3 :
    (newton_raphson_interactive 3 2 tol_default max_iter_default).records.head?
      = some ⟨1, 2, 1, 1 / 4⟩ := by decide

/-- C3: whenever the loop reaches a state whose iterate satisfies the
derivative guard `|2*x_curr| < 1e-12`, it stops there: no record for that
pass, no convergence message, whatever fuel remains — so the table built
so far consists exactly of the earlier completed passes. -/
theorem guard_stops_silently (target_val tol : ℚ) (fuel i : ℕ) (x : ℚ)
    (h : |df x| < 1 / 10 ^ 12) :
    nrLoop target_val tol fuel i x = ⟨[], none⟩ :=
  nrLoop_guard target_val tol fuel i x h

/-- Witness for C3 at the concrete state `x = 0`, fuel 10. -/
theorem guard_stops_silently_witness :
    |df 0| < 1 / 10 ^ 12 ∧ nrLoop 3 tol_default 10 0 0 = ⟨[], none⟩ :=
  ⟨by decide, guard_stops_silently 3 tol_default 10 0 0 (by decide)⟩

/-- Helper: every record before the last has `error >= tol`, and when the
last record has `error < tol` the convergence message carries the `x_next`
of that pass. -/
theorem nrLoop_tol_inv (target_val tol : ℚ) :
    ∀ fuel i x,
      (∀ r ∈ (nrLoop target_val tol fuel i x).records.dropLast, tol ≤ r.error) ∧
      (∀ r, (nrLoop target_val tol fuel i x).records.getLast? = some r →
        r.error < tol →
        (nrLoop target_val tol fuel i x).converged
          = some (x_nextVal target_val r.x_curr)) := by
  intro fuel
  induction fuel with
  | zero =>
    intro i x
    exact ⟨fun r hr => by simp [nrLoop] at hr, fun r hr => by simp [nrLoop] at hr⟩
  | succ n ih =>
    intro i x
    by_cases h : |df x| < 1 / 10 ^ 12
    · rw [nrLoop_guard _ _ _ _ _ h]
      exact ⟨fun r hr => by simp at hr, fun r hr => by simp at hr⟩
    · by_cases h2 : |x_nextVal target_val x - x| < tol
      · rw [nrLoop_succ_conv _ _ _ _ _ h h2]
        constructor
        · intro r hr; simp at hr
        · intro r hr _
          simp at hr; rw [← hr]
      · rw [nrLoop_succ_cont _ _ _ _ _ h h2]
        obtain ⟨ih1, ih2⟩ := ih (i + 1) (x_nextVal target_val x)
        constructor
        · intro r hr
          rcases hrec : (nrLoop target_val tol n (i + 1)
              (x_nextVal target_val x)).records with _ | ⟨b, l⟩
          · rw [hrec] at hr; simp at hr
          · rw [hrec] at hr
            simp only [List.dropLast_cons₂, List.mem_cons] at hr
            rcases hr with rfl | hr
            · exact le_of_not_lt h2
            · refine ih1 r ?_
              rw [hrec]
              simpa using hr
        · intro r hr hrtol
          rcases hrec : (nrLoop target_val tol n (i + 1)
              (x_nextVal target_val x)).records with _ | ⟨b, l⟩
          · rw [hrec] at hr
            simp at hr
            rw [← hr] at hrtol
            exact absurd hrtol h2
          · rw [hrec] at hr
            rw [show (⟨i + 1, x, f target_val x, |x_nextVal target_val x - x|⟩ ::
                b :: l).getLast? = (b :: l).getLast? from List.getLast?_cons_cons] at hr
            refine ih2 r ?_ hrtol
            rw [hrec]
            exact hr

/-- C6: all records but possibly the last have `error >= tol`; a record
with `error < tol` is the last one, and then the value announced by the
convergence message is the `x_next` of that pass (computed from the
record's own `x_curr` and `f_x`), not its `x_curr`. -/
theorem convergence_stops_loop (target_val x0 tol : ℚ) (max_iter : ℕ) :
    (∀ r ∈ (newton_raphson_interactive target_val x0 tol max_iter).records.dropLast,
        tol ≤ r.error) ∧
    (∀ r, (newton_raphson_interactive target_val x0 tol max_iter).records.getLast?
          = some r →
      r.error < tol →
      (newton_raphson_interactive target_val x0 tol max_iter).converged
        = some (r.x_curr - r.f_x / (2 * r.x_curr))) := by
  constructor
  · exact (nrLoop_tol_inv target_val tol max_iter 0 x0).1
  · intro r hr hrtol
    simp only [newton_raphson_interactive] at hr ⊢
    have h := (nrLoop_tol_inv target_val tol max_iter 0 x0).2 r hr hrtol
    have hf : r.f_x = f target_val r.x_curr :=
      (nrLoop_field_inv target_val tol max_iter 0 x0 r
        (List.mem_of_getLast?_eq_some hr)).1
    rw [h, hf]
    simp [x_nextVal, f, df]

/-- Witness for C6 on `solve(3, 2.0)`: the first record (not last) has
`error = 1/4 >= tol`, and the convergence message equals the `x_next` of
the fourth and last record. -/
theorem convergence_stops_loop_witness :
    tol_default ≤ (⟨1, 2, 1, 1 / 4⟩ : IterationRecord).error ∧
    (newton_raphson_interactive 3 2 tol_default max_iter_default).converged
      = some ((⟨4, 18817 / 10864, 1 / 118026496, 1 / 408855776⟩ :
            IterationRecord).x_curr
          - (⟨4, 18817 / 10864, 1 / 118026496, 1 / 408855776⟩ :
              IterationRecord).f_x
            / (2 * (⟨4, 18817 / 10864, 1 / 118026496, 1 / 408855776⟩ :
                IterationRecord).x_curr)) :=
  ⟨(convergence_stops_loop 3 2 tol_default max_iter_default).1
      ⟨1, 2, 1, 1 / 4⟩ (by decide),
   (convergence_stops_loop 3 2 tol_default max_iter_default).2
      ⟨4, 18817 / 10864, 1 / 118026496, 1 / 408855776⟩ (by decide) (by decide)⟩

/-- C4: with initial guess `x0 = 0` the guard fires on the very first
pass, for every target, tolerance and iteration cap: the returned table
has zero records. -/
theorem zero_guess_zero_records (target_val tol : ℚ) (max_iter : ℕ) :
    (newton_raphson_interactive target_val 0 tol max_iter).records = [] := by
  rw [newton_raphson_interactive, nrLoop_guard]
  decide

/-- C7: the solver is a function of its four arguments alone: calls with
equal arguments give equal results, whatever else happened before (the
embedding carries no other state the result could depend on; the Python
function reads nothing but its parameters). -/
theorem solve_deterministic (t1 x1 tl1 : ℚ) (m1 : ℕ) (t2 x2 tl2 : ℚ) (m2 : ℕ)
    (ht : t1 = t2) (hx : x1 = x2) (htol : tl1 = tl2) (hm : m1 = m2) :
    newton_raphson_interactive t1 x1 tl1 m1 = newton_raphson_interactive t2 x2 tl2 m2 := by
  rw [ht, hx, htol, hm]

/-- Witness for C7 at the first driver problem `(3, 2.0)`. -/
theorem solve_deterministic_witness :
    newton_raphson_interactive 3 2 tol_default max_iter_default
      = newton_raphson_interactive 3 2 tol_default max_iter_default :=
  solve_deterministic 3 2 tol_default max_iter_default
    3 2 tol_default max_iter_default rfl rfl rfl rfl

/-- C8: `solve(99, 10.0, max_iter=10)` with the default tolerance
converges: fewer than 10 records, the last record's error is below `1e-6`,
and the announced converged value lies in `[9.9498743, 9.9498744)`,
agreeing with `9.9498743...` to the stated digits. -/
theorem sqrt99_converges :
    (newton_raphson_interactive 99 10 tol_default max_iter_default).records ≠ [] ∧
    (newton_raphson_interactive 99 10 tol_default max_iter_default).records.length < 10 ∧
    (((newton_raphson_interactive 99 10 tol_default
          max_iter_default).records.getLast?).map IterationRecord.error).getD 1
      < tol_default ∧
    (newton_raphson_interactive 99 10 tol_default
        max_iter_default).converged.isSome = true ∧
    99498743 / 10 ^ 7
      ≤ (newton_raphson_interactive 99 10 tol_default max_iter_default).converged.getD 0 ∧
    (newton_raphson_interactive 99 10 tol_default max_iter_default).converged.getD 0
      < 99498744 / 10 ^ 7 := by
  decide

/-- C10 counterexample: `target_val = 0 >= 0` and `x0 = 1e-13 > 0`, yet
the guard `|2*x_curr| < 1e-12` holds at the very first pass, so the solver
(with the default tolerance and iteration cap) stops at once with zero
records and no convergence — the loop neither converged nor ran to
`max_iter`. -/
theorem guard_fires_at_positive_x0 :
    (0 : ℚ) ≤ 0 ∧ (0 : ℚ) < 1 / 10 ^ 13 ∧
    |df ((1 : ℚ) / 10 ^ 13)| < 1 / 10 ^ 12 ∧
    newton_raphson_interactive 0 (1 / 10 ^ 13) tol_default max_iter_default
      = ⟨[], none⟩ := by
  decide

/-- Helper: the Newton update maps a positive iterate to a positive one
when the target is nonnegative, for `x_next = (x^2 + target)/(2x)`. -/
theorem x_nextVal_pos (target_val x : ℚ) (ht : 0 ≤ target_val) (hx : 0 < x) :
    0 < x_nextVal target_val x := by
  have hne : x ≠ 0 := ne_of_gt hx
  have heq : x_nextVal target_val x = (x ^ 2 + target_val) / (2 * x) := by
    simp only [x_nextVal, f, df]
    field_simp
    ring
  rw [heq]
  exact div_pos (add_pos_of_pos_of_nonneg (pow_pos hx 2) ht) (by linarith)

/-- Helper: starting the loop from a positive iterate with nonnegative
target keeps every recorded `x_curr` positive. -/
theorem nrLoop_pos (target_val tol : ℚ) (ht : 0 ≤ target_val) :
    ∀ fuel i x, 0 < x →
      ∀ r ∈ (nrLoop target_val tol fuel i x).records, 0 < r.x_curr := by
  intro fuel
  induction fuel with
  | zero => intro i x hx r hr; simp [nrLoop] at hr
  | succ n ih =>
    intro i x hx r hr
    by_cases h : |df x| < 1 / 10 ^ 12
    · rw [nrLoop_guard _ _ _ _ _ h] at hr; simp at hr
    · by_cases h2 : |x_nextVal target_val x - x| < tol
      · rw [nrLoop_succ_conv _ _ _ _ _ h h2] at hr
        simp at hr; subst hr; exact hx
      · rw [nrLoop_succ_cont _ _ _ _ _ h h2] at hr
        simp at hr
        rcases hr with rfl | hr
        · exact hx
        · exact ih (i + 1) (x_nextVal target_val x)
            (x_nextVal_pos target_val x ht hx) r hr

/-- C10 amended: if `target_val >= 0` and `x0 > 0`, every iterate recorded
during the loop is strictly positive, so each division `fx/dfx` performed
for a record is by a nonzero `2*x_curr` (the guard can nonetheless fire at
a positive iterate below `5e-13`, ending the loop early). -/
theorem positive_iterates (target_val x0 tol : ℚ) (max_iter : ℕ)
    (ht : 0 ≤ target_val) (hx0 : 0 < x0) :
    ∀ r ∈ (newton_raphson_interactive target_val x0 tol max_iter).records,
      0 < r.x_curr ∧ df r.x_curr ≠ 0 := by
  intro r hr
  have h := nrLoop_pos target_val tol ht max_iter 0 x0 hx0 r hr
  refine ⟨h, ?_⟩
  simp only [df]
  exact ne_of_gt (by linarith)

/-- Witness for the amended C10 on the first record of `solve(3, 2.0)`. -/
theorem positive_iterates_witness :
    0 < (⟨1, 2, 1, 1 / 4⟩ : IterationRecord).x_curr ∧
    df (⟨1, 2, 1, 1 / 4⟩ : IterationRecord).x_curr ≠ 0 :=
  positive_iterates 3 2 tol_default max_iter_default (by decide) (by decide)
    ⟨1, 2, 1, 1 / 4⟩ (by decide)


/-- Helper: over the reals, the embedded update agrees with
`x - (x^2 - N)/(2x)` (the Newton map of line 42) away from the singular
point `x = 0`. -/
theorem x_nextVal_cast (target_val x : ℚ) (hx : x ≠ 0) :
    ((x_nextVal target_val x : ℚ) : ℝ)
      = (x : ℝ) - ((x : ℝ) ^ 2 - (target_val : ℝ)) / (2 * (x : ℝ)) := by
  have hx' : (x : ℝ) ≠ 0 := by exact_mod_cast hx
  simp only [x_nextVal, f, df]
  push_cast
  ring

/-- Helper: one Newton update from any positive real point lands at or
above `√N` (the overshoot inequality `(x - √N)^2 ≥ 0`). -/
theorem step_ge_sqrt (target_val x : ℝ) (ht : 0 ≤ target_val) (hx : 0 < x) :
    Real.sqrt target_val ≤ x - (x ^ 2 - target_val) / (2 * x) := by
  have key : Real.sqrt target_val ≤ (x ^ 2 + target_val) / (2 * x) := by
    rw [le_div_iff₀ (by linarith)]
    have hs := Real.sq_sqrt ht
    nlinarith [sq_nonneg (x - Real.sqrt target_val)]
  have heq : x - (x ^ 2 - target_val) / (2 * x)
      = (x ^ 2 + target_val) / (2 * x) := by
    field_simp
    ring
  rw [heq]
  exact key

/-- Helper: at or above `√N` the distance to `√N` at least halves with
each Newton update. -/
theorem step_contract (target_val x : ℝ) (ht : 0 ≤ target_val) (hx : 0 < x)
    (hsx : Real.sqrt target_val ≤ x) :
    (x - (x ^ 2 - target_val) / (2 * x)) - Real.sqrt target_val
      ≤ (x - Real.sqrt target_val) / 2 := by
  have heq : x - (x ^ 2 - target_val) / (2 * x)
      = (x ^ 2 + target_val) / (2 * x) := by
    field_simp
    ring
  rw [heq, sub_le_iff_le_add, div_le_iff₀ (by linarith)]
  have hs := Real.sq_sqrt ht
  have hs0 := Real.sqrt_nonneg target_val
  nlinarith [mul_le_mul_of_nonneg_left hsx hs0]

/-- C9: for every `N >= 0` and `x0 > 0` (embedded program values), the
sequence of iterates of the code's update map converges to `√N` as the
iteration count grows without bound. -/
theorem newton_tendsto_sqrt (target_val x0 : ℚ) (ht : 0 ≤ target_val)
    (hx0 : 0 < x0) :
    Filter.Tendsto (fun k => (((x_nextVal target_val)^[k] x0 : ℚ) : ℝ))
      Filter.atTop (nhds (Real.sqrt (target_val : ℝ))) := by
  have ht' : (0 : ℝ) ≤ (target_val : ℝ) := by exact_mod_cast ht
  have hpos : ∀ k, 0 < (x_nextVal target_val)^[k] x0 := by
    intro k
    induction k with
    | zero => simpa using hx0
    | succ n ih =>
      rw [Function.iterate_succ_apply']
      exact x_nextVal_pos target_val _ ht ih
  have hposR : ∀ k, (0 : ℝ) < (((x_nextVal target_val)^[k] x0 : ℚ) : ℝ) := by
    intro k; exact_mod_cast hpos k
  have hstep : ∀ k, (((x_nextVal target_val)^[k + 1] x0 : ℚ) : ℝ)
      = (((x_nextVal target_val)^[k] x0 : ℚ) : ℝ)
        - ((((x_nextVal target_val)^[k] x0 : ℚ) : ℝ) ^ 2 - (target_val : ℝ))
          / (2 * (((x_nextVal target_val)^[k] x0 : ℚ) : ℝ)) := by
    intro k
    rw [Function.iterate_succ_apply']
    exact x_nextVal_cast target_val _ (ne_of_gt (hpos k))
  have hge : ∀ k, Real.sqrt (target_val : ℝ)
      ≤ (((x_nextVal target_val)^[k + 1] x0 : ℚ) : ℝ) := by
    intro k
    rw [hstep k]
    exact step_ge_sqrt (target_val : ℝ) _ ht' (hposR k)
  have hbound : ∀ k,
      (((x_nextVal target_val)^[k + 1] x0 : ℚ) : ℝ) - Real.sqrt (target_val : ℝ)
        ≤ ((((x_nextVal target_val)^[1] x0 : ℚ) : ℝ) - Real.sqrt (target_val : ℝ))
            * (1 / 2) ^ k := by
    intro k
    induction k with
    | zero => simp
    | succ n ih =>
      have h1 : (((x_nextVal target_val)^[n + 1 + 1] x0 : ℚ) : ℝ)
            - Real.sqrt (target_val : ℝ)
          ≤ ((((x_nextVal target_val)^[n + 1] x0 : ℚ) : ℝ)
              - Real.sqrt (target_val : ℝ)) / 2 := by
        rw [hstep (n + 1)]
        exact step_contract (target_val : ℝ) _ ht' (hposR (n + 1)) (hge n)
      calc (((x_nextVal target_val)^[n + 1 + 1] x0 : ℚ) : ℝ)
            - Real.sqrt (target_val : ℝ)
          ≤ ((((x_nextVal target_val)^[n + 1] x0 : ℚ) : ℝ)
              - Real.sqrt (target_val : ℝ)) / 2 := h1
        _ ≤ (((((x_nextVal target_val)^[1] x0 : ℚ) : ℝ)
              - Real.sqrt (target_val : ℝ)) * (1 / 2) ^ n) / 2 := by linarith
        _ = ((((x_nextVal target_val)^[1] x0 : ℚ) : ℝ)
              - Real.sqrt (target_val : ℝ)) * (1 / 2) ^ (n + 1) := by ring
  have hupper : Filter.Tendsto
      (fun k => Real.sqrt (target_val : ℝ)
        + ((((x_nextVal target_val)^[1] x0 : ℚ) : ℝ)
            - Real.sqrt (target_val : ℝ)) * (1 / 2 : ℝ) ^ k)
      Filter.atTop (nhds (Real.sqrt (target_val : ℝ))) := by
    have h0 : Filter.Tendsto (fun k : ℕ => ((1 : ℝ) / 2) ^ k) Filter.atTop
        (nhds 0) :=
      tendsto_pow_atTop_nhds_zero_of_lt_one (by norm_num) (by norm_num)
    have h1 := (h0.const_mul ((((x_nextVal target_val)^[1] x0 : ℚ) : ℝ)
        - Real.sqrt (target_val : ℝ))).const_add (Real.sqrt (target_val : ℝ))
    simpa using h1
  have hsq : Filter.Tendsto
      (fun k => (((x_nextVal target_val)^[k + 1] x0 : ℚ) : ℝ)) Filter.atTop
      (nhds (Real.sqrt (target_val : ℝ))) := by
    refine tendsto_of_tendsto_of_tendsto_of_le_of_le tendsto_const_nhds hupper
      (fun k => hge k) (fun k => ?_)
    have := hbound k
    linarith
  exact (Filter.tendsto_add_atTop_iff_nat 1).mp hsq

/-- Witness for C9 at `N = 0`, `x0 = 1`. -/
theorem newton_tendsto_sqrt_witness :
    Filter.Tendsto (fun k => (((x_nextVal 0)^[k] 1 : ℚ) : ℝ)) Filter.atTop
      (nhds (Real.sqrt ((0 : ℚ) : ℝ))) :=
  newton_tendsto_sqrt 0 1 le_rfl one_pos
